import Mathlib

/-!
Verification of the s-expression parsing/extraction/serialization core of the
mcp-sexpr repository. The Value model mirrors the parsed-value tree used by
the code (string/symbol/keyword/boolean/integer atoms and cons cells, with
integer atoms split into a non-negative u64-backed form and an i64-backed
negative form, exactly as the underlying number representation stores them).
Strings are embedded as lists of characters.
-/

/-- Parsed s-expression values: the tree the extraction functions walk. -/
inductive Value where
  | null
  | bool (b : Bool)
  | posint (n : Nat)
  | negint (n : Int)
  | string (s : List Char)
  | symbol (s : List Char)
  | keyword (s : List Char)
  | cons (car cdr : Value)
  deriving DecidableEq, Repr

/-- Accessor: the payload of a string atom, none otherwise. -/
def as_str : Value → Option (List Char)
  | .string s => some s
  | _ => none

/-- Accessor: the payload of a symbol atom, none otherwise. -/
def as_symbol : Value → Option (List Char)
  | .symbol s => some s
  | _ => none

/-- Accessor: the payload of a keyword atom, none otherwise. -/
def as_keyword : Value → Option (List Char)
  | .keyword s => some s
  | _ => none

/-- Accessor: the payload of a boolean atom, none otherwise. -/
def as_bool : Value → Option Bool
  | .bool b => some b
  | _ => none

/-- Accessor: the head and tail of a list cell, none otherwise. -/
def as_cons : Value → Option (Value × Value)
  | .cons a d => some (a, d)
  | _ => none

/-- Upper bound of the signed 64-bit range, as a natural number (2 to the 63). -/
def i64Lim : Nat := 9223372036854775808

/-- Size of the 64-bit value space (2 to the 64). -/
def u64Mod : Nat := 18446744073709551616

/-- Accessor mirroring the number type behind the value model: a negative atom
yields its value; a non-negative atom yields its value when it fits in the
signed 64-bit range, none otherwise. -/
def as_i64 : Value → Option Int
  | .negint n => some n
  | .posint n => if n < i64Lim then some (n : Int) else none
  | _ => none

/-- Accessor: a non-negative integer atom yields its u64 payload. -/
def as_u64 : Value → Option Nat
  | .posint n => some n
  | _ => none

/-- Reinterpretation of a u64 bit pattern as an i64, as performed by an
unchecked numeric cast: values at or above 2 to the 63 wrap around. -/
def u64_as_i64 (n : Nat) : Int :=
  if n < i64Lim then (n : Int) else (n : Int) - (u64Mod : Int)

/-- Strip one leading colon from a symbol name, keeping it unchanged when no
colon leads (mirrors stripping the keyword marker in normalize_kw). -/
def stripColon : List Char → List Char
  | [] => []
  | c :: r => if c = ':' then r else c :: r

/-- Keyword-name view of an atom: symbols have their optional leading colon
stripped, keyword atoms yield their name, anything else has none. -/
def normalize_kw (key : Value) : Option (List Char) :=
  match as_symbol key with
  | some sym => some (stripColon sym)
  | none =>
    match as_keyword key with
    | some kw => some kw
    | none => none

/-- Loop of get_kw_value: walk the sequence after the tag pairwise, stopping
at the first head with no keyword interpretation, failing when a keyword
head has no following element, and returning the first matching pair. -/
def kwLoop (key : List Char) : Value → Except String (Option Value)
  | .cons k rest =>
    match normalize_kw k with
    | none => .ok none
    | some found =>
      match rest with
      | .cons v rest2 =>
        if found = key then .ok (some v) else kwLoop key rest2
      | _ => .error ("expected value after keyword :" ++ String.mk found)
  | _ => .ok none

/-- Extract the raw value paired with a keyword in a tool-call form. -/
def get_kw_value (root : Value) (key : List Char) : Except String (Option Value) :=
  match as_cons root with
  | none => .error "expected list (tool call form)"
  | some (_, cdr) => kwLoop key cdr

/-- Collect the heads of the chain of list cells starting at a value; a
non-cell starting point yields the empty collection. -/
def iterListLoop : Value → List Value
  | .cons a d => a :: iterListLoop d
  | _ => []

/-- Iterate over a list value (mirrors iter_list, which wraps the collected
elements in a success result unconditionally). -/
def iter_list (value : Value) : Except String (List Value) :=
  .ok (iterListLoop value)

/-- Require every collected element to be a string atom, in order. -/
def strItems : List Value → Except String (List (List Char))
  | [] => .ok []
  | i :: r =>
    match as_str i with
    | some s => (strItems r).map (fun t => s :: t)
    | none => .error "expected string item in list"

/-- Parse a list of strings from a value. -/
def parse_str_list (value : Value) : Except String (List (List Char)) :=
  match iter_list value with
  | .error e => .error e
  | .ok items => strItems items

/-- Extract a string list, adding context to a failure. -/
def extract_string_list (value : Value) : Except String (List (List Char)) :=
  match parse_str_list value with
  | .error e => .error ("Failed to parse string list: " ++ e)
  | .ok r => .ok r

/-- Two-variant text-or-reference value: inline literal text or a file path
taken from a use-form. -/
inductive TextRef where
  | Literal (s : List Char)
  | UsePath (s : List Char)
  deriving DecidableEq, Repr

/-- Parse either a string literal or a use-form into a TextRef. -/
def parse_text_ref (value : Value) : Except String TextRef :=
  match as_str value with
  | some s => .ok (.Literal s)
  | none =>
    match as_cons value with
    | none => .error "expected string or (use \x22path\x22)"
    | some (car, cdr) =>
      match as_symbol car with
      | none => .error "expected (use \x22path\x22)"
      | some head =>
        if head = ['u', 's', 'e'] then
          match as_cons cdr with
          | none => .error "(use ...) missing argument"
          | some (arg, _) =>
            match as_str arg with
            | some path => .ok (.UsePath path)
            | none => .error "(use ...) path must be a string"
        else .error "expected (use \x22path\x22)"

/-- Escaping applied per character by quote_str: backslash, double quote and
newline become two-character escape sequences, all else passes through. -/
def escChunk (ch : Char) : List Char :=
  if ch = '\\' then ['\\', '\\']
  else if ch = '"' then ['\\', '"']
  else if ch = '\n' then ['\\', 'n']
  else [ch]

/-- Quote and minimally escape a string, accumulating output left to right as
the source loop does. -/
def quote_str (s : List Char) : List Char :=
  (s.foldl (fun out ch => out ++ escChunk ch) ['"']) ++ ['"']

/-- Render a TextRef back to text: a quoted literal, or a use-form wrapping
the quoted path. -/
def render_text_ref : TextRef → List Char
  | .Literal s => quote_str s
  | .UsePath path => '(' :: 'u' :: 's' :: 'e' :: ' ' :: (quote_str path ++ [')'])

/-- Base-ten digit accumulation used when parsing integer strings. -/
def digitsValAux : Nat → List Char → Option Nat
  | acc, [] => some acc
  | acc, c :: r =>
    if c.isDigit then digitsValAux (acc * 10 + (c.toNat - 48)) r else none

/-- Value of a non-empty all-digit character sequence, none otherwise. -/
def digitsVal : List Char → Option Nat
  | [] => none
  | c :: r => digitsValAux 0 (c :: r)

/-- Modelled from the spec: the standard-library signed 64-bit integer string
parse used by get_int (an optional sign followed by at least one base-ten
digit, with the result required to fit in the signed 64-bit range), which is
not part of this repository's sources. -/
def parse_i64 (s : List Char) : Option Int :=
  match s with
  | [] => none
  | c :: rest =>
    if c = '+' then
      (digitsVal rest).bind (fun n => if n < i64Lim then some (n : Int) else none)
    else if c = '-' then
      (digitsVal rest).bind (fun n => if n ≤ i64Lim then some (-(n : Int)) else none)
    else
      (digitsVal (c :: rest)).bind (fun n => if n < i64Lim then some (n : Int) else none)

/-- Extract an optional integer keyword argument: a signed-range value is
taken as is, a u64-only value is cast with wraparound, and a string atom is
parsed as a base-ten integer; anything else errors. -/
def get_int (root : Value) (key : List Char) : Except String (Option Int) :=
  match get_kw_value root key with
  | .error e => .error e
  | .ok none => .ok none
  | .ok (some v) =>
    match as_i64 v with
    | some n => .ok (some n)
    | none =>
      match as_u64 v with
      | some n => .ok (some (u64_as_i64 n))
      | none =>
        match as_str v with
        | some s =>
          match parse_i64 s with
          | some n => .ok (some n)
          | none => .error "must be an integer"
        | none => .error "must be an integer"

/-- Space-joined concatenation of rendered fragments. -/
def joinSp : List (List Char) → List Char
  | [] => []
  | [x] => x
  | x :: r => x ++ ' ' :: joinSp r

/-- Rendered keyword/value field of a response form. -/
def fieldChunk (kv : List Char × List Char) : List Char :=
  ':' :: kv.1 ++ ' ' :: quote_str kv.2

/-- Format a success response with keyword fields. -/
def format_success (fields : List (List Char × List Char)) : List Char :=
  ('(' :: 's' :: 'u' :: 'c' :: 'c' :: 'e' :: 's' :: 's' :: ' ' :: [])
    ++ joinSp (fields.map fieldChunk) ++ [')']

/-- Format a complete response, special-casing the empty field list. -/
def format_complete (fields : List (List Char × List Char)) : List Char :=
  if fields.isEmpty then
    ('(' :: 'c' :: 'o' :: 'm' :: 'p' :: 'l' :: 'e' :: 't' :: 'e' :: ')' :: [])
  else
    ('(' :: 'c' :: 'o' :: 'm' :: 'p' :: 'l' :: 'e' :: 't' :: 'e' :: ' ' :: [])
      ++ joinSp (fields.map fieldChunk) ++ [')']

/-- Whitespace characters skipped between tokens. -/
def isWsChar (c : Char) : Bool :=
  c = ' ' || c = '\n' || c = '\t' || c = '\r'

/-- Skip leading whitespace. -/
def skipWs : List Char → List Char
  | [] => []
  | c :: r => if isWsChar c then skipWs r else c :: r

/-- Characters that end a bare token. -/
def isDelim (c : Char) : Bool :=
  isWsChar c || c = '(' || c = ')' || c = '"'

/-- Read a bare token: the longest delimiter-free run at the front, together
with the remaining input. -/
def readTok : List Char → List Char × List Char
  | [] => ([], [])
  | c :: r =>
    if isDelim c then ([], c :: r)
    else
      let p := readTok r
      (c :: p.1, p.2)

/-- Decoding of a single escape sequence inside a string literal. -/
def unescChar (e : Char) : Option Char :=
  if e = '\\' then some '\\'
  else if e = '"' then some '"'
  else if e = 'n' then some '\n'
  else if e = 't' then some '\t'
  else if e = 'r' then some '\r'
  else none

/-- Read the body of a string literal after the opening quote: characters up
to the closing quote, decoding escape sequences, any other character taken
as itself; none on an unterminated literal or unknown escape. -/
def readStrBody : List Char → Option (List Char × List Char)
  | [] => none
  | c :: rest =>
    if c = '"' then some ([], rest)
    else if c = '\\' then
      match rest with
      | [] => none
      | e :: rest2 =>
        match unescChar e with
        | some d => (readStrBody rest2).map (fun p => (d :: p.1, p.2))
        | none => none
    else (readStrBody rest).map (fun p => (c :: p.1, p.2))

/-- Numeric value of an all-digit token. -/
def natOfDigits (l : List Char) : Nat :=
  l.foldl (fun a c => a * 10 + (c.toNat - 48)) 0

/-- Classification of a bare token into an atom: booleans, non-negative and
negative integers, and symbols (a leading colon stays part of the symbol
name, as the keyword-normalization step strips it later). -/
def classify (tok : List Char) : Value :=
  if tok = ['#', 't'] then .bool true
  else if tok = ['#', 'f'] then .bool false
  else if tok.all Char.isDigit && !tok.isEmpty then .posint (natOfDigits tok)
  else if tok.head? = some '-' && tok.tail.all Char.isDigit && !tok.tail.isEmpty then
    .negint (-(natOfDigits tok.tail : Int))
  else .symbol tok

/-- Modelled from the spec: the recursive-descent reader of the external
s-expression parsing library, which is not part of this repository's
sources. With the mode flag false it reads one value (a parenthesized list,
a string literal whose reader inverts the quoting function, or a bare atom);
with the mode flag true it reads list elements up to a closing parenthesis,
building a null-terminated chain of cells. Fuel bounds the recursion depth
and is in surplus for every input the proofs touch. -/
def parseStep (rec : Bool → List Char → Option (Value × List Char)) :
    Bool → List Char → Option (Value × List Char)
  | false, cs =>
    match skipWs cs with
    | [] => none
    | c :: rest =>
      if c = '(' then rec true rest
      else if c = '"' then (readStrBody rest).map (fun p => (Value.string p.1, p.2))
      else if c = ')' then none
      else
        let p := readTok (c :: rest)
        some (classify p.1, p.2)
  | true, cs =>
    match skipWs cs with
    | [] => none
    | c :: rest =>
      if c = ')' then some (Value.null, rest)
      else
        match rec false (c :: rest) with
        | none => none
        | some (v, r) =>
          match rec true r with
          | none => none
          | some (tl, r2) => some (Value.cons v tl, r2)

/-- Fuel-indexed iteration of the reader step. -/
def parseRun : Nat → Bool → List Char → Option (Value × List Char)
  | 0, _, _ => none
  | f + 1, mode, cs => parseStep (parseRun f) mode cs

/-- Modelled from the spec: parse a full s-expression string into a value,
consuming the entire input, with trailing whitespace insignificant. -/
def parse_value (input : List Char) : Except String Value :=
  match parseRun (input.length + 1) false input with
  | some (v, rest) =>
    if skipWs rest = [] then .ok v else .error "trailing input after s-expression"
  | none => .error "failed to parse s-expression"

/-- Concatenated per-character escapes: the body quote_str places between the
quotes. -/
def escBody : List Char → List Char
  | [] => []
  | c :: r => escChunk c ++ escBody r

theorem foldl_escChunk (s : List Char) :
    ∀ out : List Char, (s.foldl (fun o ch => o ++ escChunk ch) out) = out ++ escBody s := by
  induction s with
  | nil => intro out; simp [escBody]
  | cons c r ih => intro out; simp [escBody, List.foldl, ih, List.append_assoc]

theorem quote_str_eq (s : List Char) : quote_str s = '"' :: (escBody s ++ ['"']) := by
  simp [quote_str, foldl_escChunk]

theorem readStrBody_escBody (s : List Char) :
    ∀ rest, readStrBody (escBody s ++ '"' :: rest) = some (s, rest) := by
  induction s with
  | nil =>
    intro rest
    rw [show escBody [] ++ '"' :: rest = '"' :: rest from rfl, readStrBody.eq_def]
    simp
  | cons c r ih =>
    intro rest
    by_cases h1 : c = '\\'
    · subst h1
      rw [show escBody ('\\' :: r) ++ '"' :: rest
            = '\\' :: '\\' :: (escBody r ++ '"' :: rest) from rfl, readStrBody.eq_def]
      simp [unescChar, ih]
    · by_cases h2 : c = '"'
      · subst h2
        rw [show escBody ('"' :: r) ++ '"' :: rest
              = '\\' :: '"' :: (escBody r ++ '"' :: rest) from rfl, readStrBody.eq_def]
        simp [unescChar, ih]
      · by_cases h3 : c = '\n'
        · subst h3
          rw [show escBody ('\n' :: r) ++ '"' :: rest
                = '\\' :: 'n' :: (escBody r ++ '"' :: rest) from rfl, readStrBody.eq_def]
          simp [unescChar, ih]
        · have hch : escChunk c = [c] := by simp [escChunk, h1, h2, h3]
          rw [show escBody (c :: r) ++ '"' :: rest
                = escChunk c ++ (escBody r ++ '"' :: rest) from by
              simp [escBody, List.append_assoc], hch,
              show [c] ++ (escBody r ++ '"' :: rest) = c :: (escBody r ++ '"' :: rest) from rfl,
              readStrBody.eq_def]
          simp [h1, h2, ih]

theorem parseRun_string (f : Nat) (s rest : List Char) :
    parseRun (f + 1) false ('"' :: (escBody s ++ '"' :: rest)) = some (.string s, rest) := by
  simp +decide [parseRun, parseStep, skipWs, isWsChar, readStrBody_escBody]

theorem parse_value_quote (s : List Char) : parse_value (quote_str s) = .ok (.string s) := by
  rw [quote_str_eq]
  simp only [parse_value, parseRun_string]
  simp [skipWs]

/-- C4: for every string s, parsing the quoted form recovers s exactly —
parse_value (quote_str s) succeeds and yields the string atom s, including
for s containing double-quote, backslash, and newline characters. -/
theorem c4_parse_inverts_quote (s : List Char) :
    parse_value (quote_str s) = .ok (.string s) :=
  parse_value_quote s

/-- C5: quote_str s equals a double quote, then s with each backslash,
double-quote and newline replaced by its two-character escape and every
other character passed through unchanged, then a closing double quote. -/
theorem c5_quote_str_chars (s : List Char) :
    quote_str s = '"' ::
      (s.foldr (fun ch acc =>
        (if ch = '\\' then ['\\', '\\']
         else if ch = '"' then ['\\', '"']
         else if ch = '\n' then ['\\', 'n']
         else [ch]) ++ acc) []) ++ ['"'] := by
  rw [quote_str_eq]
  have hb : escBody s = s.foldr (fun ch acc =>
      (if ch = '\\' then ['\\', '\\']
       else if ch = '"' then ['\\', '"']
       else if ch = '\n' then ['\\', 'n']
       else [ch]) ++ acc) [] := by
    induction s with
    | nil => simp [escBody]
    | cons c r ih => simp [escBody, escChunk, ih]
  rw [hb]
  simp

/-- C10: format_success on an empty field list yields a form with a single
space before the closing parenthesis, while format_complete special-cases
the empty field list to a form with no interior space. -/
theorem c10_empty_field_forms :
    format_success [] = "(success )".toList ∧
    format_complete [] = "(complete)".toList := by
  constructor
  · decide
  · decide


theorem parseStep_mono (r1 r2 : Bool → List Char → Option (Value × List Char))
    (hr : ∀ mode cs out, r1 mode cs = some out → r2 mode cs = some out) :
    ∀ mode cs out, parseStep r1 mode cs = some out → parseStep r2 mode cs = some out := by
  intro mode cs out h
  cases mode with
  | false =>
    simp only [parseStep] at h ⊢
    cases hsk : skipWs cs with
    | nil => rw [hsk] at h; simp at h
    | cons c rest =>
      rw [hsk] at h
      simp only at h ⊢
      by_cases hc : c = '('
      · simp only [hc, if_pos rfl] at h ⊢
        exact hr true rest out h
      · simp only [if_neg hc] at h ⊢
        exact h
  | true =>
    simp only [parseStep] at h ⊢
    cases hsk : skipWs cs with
    | nil => rw [hsk] at h; simp at h
    | cons c rest =>
      rw [hsk] at h
      simp only at h ⊢
      by_cases hc : c = ')'
      · simp only [hc, if_pos rfl] at h ⊢
        exact h
      · simp only [if_neg hc] at h ⊢
        cases hv : r1 false (c :: rest) with
        | none => rw [hv] at h; simp at h
        | some vr =>
          obtain ⟨v, rr⟩ := vr
          rw [hv] at h
          rw [hr false (c :: rest) (v, rr) hv]
          simp only at h ⊢
          cases ht : r1 true rr with
          | none => rw [ht] at h; simp at h
          | some tr =>
            obtain ⟨tl, rr2⟩ := tr
            rw [ht] at h
            rw [hr true rr (tl, rr2) ht]
            exact h

theorem parseRun_mono : ∀ (f f' : Nat), f ≤ f' → ∀ (mode : Bool) (cs : List Char)
    (out : Value × List Char), parseRun f mode cs = some out → parseRun f' mode cs = some out := by
  intro f
  induction f with
  | zero =>
    intro f' _ mode cs out h
    exact absurd h (by simp [parseRun])
  | succ f ih =>
    intro f' hle mode cs out h
    obtain ⟨g, rfl⟩ : ∃ g, f' = g + 1 := ⟨f' - 1, by omega⟩
    have hg : f ≤ g := by omega
    simp only [parseRun] at h ⊢
    exact parseStep_mono (parseRun f) (parseRun g) (fun m c o => ih g hg m c o) mode cs out h

theorem readTok_use (t : List Char) :
    readTok ('u' :: 's' :: 'e' :: ' ' :: t) = (['u', 's', 'e'], ' ' :: t) := by
  simp [readTok, isDelim, isWsChar]

theorem classify_use : classify ['u', 's', 'e'] = .symbol ['u', 's', 'e'] := by
  decide

theorem parseRun_use_items (f : Nat) (p rest : List Char) :
    parseRun (f + 1 + 1 + 1) true ('u' :: 's' :: 'e' :: ' ' :: (quote_str p ++ ')' :: rest))
      = some (.cons (.symbol ['u', 's', 'e']) (.cons (.string p) .null), rest) := by
  rw [quote_str_eq]
  simp [parseRun, parseStep, skipWs, isWsChar, readTok_use, classify_use, readStrBody_escBody]

theorem parse_value_render_use (p : List Char) :
    parse_value (render_text_ref (.UsePath p))
      = .ok (.cons (.symbol ['u', 's', 'e']) (.cons (.string p) .null)) := by
  have hle : (0 + 1 + 1 + 1 : Nat)
      ≤ ('u' :: 's' :: 'e' :: ' ' :: (quote_str p ++ [')'])).length + 1 := by
    simp
  have hrun := parseRun_mono (0 + 1 + 1 + 1)
    (('u' :: 's' :: 'e' :: ' ' :: (quote_str p ++ [')'])).length + 1) hle true
    ('u' :: 's' :: 'e' :: ' ' :: (quote_str p ++ ')' :: []))
    (.cons (.symbol ['u', 's', 'e']) (.cons (.string p) .null), [])
    (parseRun_use_items 0 p [])
  simp only [List.length_cons, List.length_append, List.length_singleton,
    List.length_nil, Nat.zero_add] at hrun
  simp only [render_text_ref, parse_value]
  rw [show (('(' :: 'u' :: 's' :: 'e' :: ' ' :: (quote_str p ++ [')'])).length + 1)
      = (('u' :: 's' :: 'e' :: ' ' :: (quote_str p ++ [')'])).length + 1) + 1 from by simp]
  rw [show parseRun ((('u' :: 's' :: 'e' :: ' ' :: (quote_str p ++ [')'])).length + 1) + 1) false
        ('(' :: 'u' :: 's' :: 'e' :: ' ' :: (quote_str p ++ [')']))
      = parseStep (parseRun (('u' :: 's' :: 'e' :: ' ' :: (quote_str p ++ [')'])).length + 1)) false
        ('(' :: 'u' :: 's' :: 'e' :: ' ' :: (quote_str p ++ [')'])) from rfl]
  simp [parseStep, skipWs, isWsChar, hrun]

/-- C1: for every TextRef r, both variants and every payload string, parsing
the rendered text re-yields r: feeding render_text_ref r through parse_value
and then parse_text_ref gives back exactly r. -/
theorem c1_text_ref_roundtrip (r : TextRef) :
    (parse_value (render_text_ref r)).bind parse_text_ref = .ok r := by
  cases r with
  | Literal s =>
    rw [show render_text_ref (.Literal s) = quote_str s from rfl, parse_value_quote]
    simp [Except.bind, parse_text_ref, as_str]
  | UsePath p =>
    rw [parse_value_render_use]
    simp [Except.bind, parse_text_ref, as_str, as_cons, as_symbol]

/-- Chain of keyword/value pairs prepended onto a tail value, the shape of
the argument region of a tool-call form. -/
def kwPairs : List (Value × Value) → Value → Value
  | [], t => t
  | (k, v) :: r, t => .cons k (.cons v (kwPairs r t))

/-- C2: when the keyword region holds several positions normalizing to the
requested name, get_kw_value returns the value paired with the earliest one
walking head to tail, and nothing after that pair is inspected — the tail t
is arbitrary, so later duplicates and even malformed tails cause no error. -/
theorem c2_first_keyword_wins (tag : Value) (ps : List (Value × Value)) (k v t : Value)
    (key : List Char)
    (hps : ∀ p ∈ ps, ∃ n, normalize_kw p.1 = some n ∧ n ≠ key)
    (hk : normalize_kw k = some key) :
    get_kw_value (.cons tag (kwPairs ps (.cons k (.cons v t)))) key = .ok (some v) := by
  simp only [get_kw_value, as_cons]
  induction ps with
  | nil => simp [kwPairs, kwLoop, hk]
  | cons p r ih =>
    obtain ⟨k0, v0⟩ := p
    obtain ⟨n, hn, hne⟩ := hps (k0, v0) (by simp)
    rw [show kwPairs ((k0, v0) :: r) (.cons k (.cons v t))
        = .cons k0 (.cons v0 (kwPairs r (.cons k (.cons v t)))) from rfl]
    rw [kwLoop.eq_def]
    simp only [hn]
    simp [hne, ih (fun q hq => hps q (by simp [hq]))]

theorem c2_first_keyword_wins_witness :
    get_kw_value (.cons (.symbol ['t', 'o', 'o', 'l'])
      (.cons (.symbol [':', 'a']) (.cons (.posint 1)
        (.cons (.symbol [':', 'a']) (.cons (.posint 2) .null))))) ['a']
      = .ok (some (.posint 1)) :=
  c2_first_keyword_wins (.symbol ['t', 'o', 'o', 'l']) [] (.symbol [':', 'a']) (.posint 1)
    (.cons (.symbol [':', 'a']) (.cons (.posint 2) .null)) ['a']
    (fun p hp => absurd hp (by simp)) (by decide)

/-- Truth of an error outcome. -/
def isErr {a : Type} : Except String a → Bool
  | .error _ => true
  | .ok _ => false

/-- Characterization written from the spec's walk description: the pairwise
walk, before returning any match for the requested name, reaches a head with
a keyword interpretation whose following value element does not exist. -/
def specKwDangling (key : List Char) : Value → Bool
  | .cons k rest =>
    match normalize_kw k with
    | none => false
    | some found =>
      match rest with
      | .cons _ rest2 => if found = key then false else specKwDangling key rest2
      | _ => true
  | _ => false

/-- Characterization written from the spec: the walk reaches a complete pair
whose head normalizes to the requested name. -/
def specKwFound (key : List Char) : Value → Bool
  | .cons k rest =>
    match normalize_kw k with
    | none => false
    | some found =>
      match rest with
      | .cons _ rest2 => if found = key then true else specKwFound key rest2
      | _ => false
  | _ => false

theorem kwLoop_err (key : List Char) (d : Value) :
    isErr (kwLoop key d) = specKwDangling key d := by
  induction d using kwLoop.induct key with
  | case1 k rest hk =>
    rw [kwLoop.eq_def, specKwDangling.eq_def]
    simp [hk, isErr]
  | case2 k v rest hk =>
    rw [kwLoop.eq_def, specKwDangling.eq_def]
    simp [hk, isErr]
  | case3 k found hk v rest hne ih =>
    rw [kwLoop.eq_def, specKwDangling.eq_def]
    simp [hk, hne]
    exact ih
  | case4 k rest found hk hnc =>
    cases rest
    case cons a d => exact ((hnc a d) rfl).elim
    all_goals
      rw [kwLoop.eq_def, specKwDangling.eq_def]
      simp [hk, isErr]
  | case5 t hnc =>
    cases t
    case cons a d => exact ((hnc a d) rfl).elim
    all_goals
      rw [kwLoop.eq_def, specKwDangling.eq_def]
      simp [isErr]

theorem kwLoop_absent (key : List Char) (d : Value) :
    specKwDangling key d = false → specKwFound key d = false →
    kwLoop key d = .ok none := by
  induction d using kwLoop.induct key with
  | case1 k rest hk =>
    intro _ _
    rw [kwLoop.eq_def]
    simp [hk]
  | case2 k v rest hk =>
    intro _ hf
    rw [specKwFound.eq_def] at hf
    simp [hk] at hf
  | case3 k found hk v rest hne ih =>
    intro hd hf
    rw [specKwDangling.eq_def] at hd
    rw [specKwFound.eq_def] at hf
    simp [hk, hne] at hd hf
    rw [kwLoop.eq_def]
    simp [hk, hne, ih hd hf]
  | case4 k rest found hk hnc =>
    cases rest
    case cons a d => exact ((hnc a d) rfl).elim
    all_goals
      intro hd _
      rw [specKwDangling.eq_def] at hd
      simp [hk] at hd
  | case5 t hnc =>
    cases t
    case cons a d => exact ((hnc a d) rfl).elim
    all_goals
      intro _ _
      rw [kwLoop.eq_def]

/-- C3: for every list-cell root, get_kw_value errors exactly when the walk,
before finding the requested name, reaches a keyword-interpretable head with
no following value element; when the walk instead exhausts the keyword
region without a match, the result is a non-error absence. -/
theorem c3_error_iff_dangling (a d : Value) (key : List Char) :
    (isErr (get_kw_value (.cons a d) key) = specKwDangling key d) ∧
    (specKwDangling key d = false → specKwFound key d = false →
      get_kw_value (.cons a d) key = .ok none) := by
  constructor
  · simp only [get_kw_value, as_cons]
    exact kwLoop_err key d
  · intro hd hf
    simp only [get_kw_value, as_cons]
    exact kwLoop_absent key d hd hf

theorem c3_error_iff_dangling_witness :
    get_kw_value (.cons (.symbol ['t', 'o', 'o', 'l'])
      (.cons (.string ['x']) .null)) ['k'] = .ok none :=
  (c3_error_iff_dangling (.symbol ['t', 'o', 'o', 'l'])
    (.cons (.string ['x']) .null) ['k']).2 (by decide) (by decide)

/-- C9: a bare symbol (no leading colon) in keyword head position still has a
keyword-name interpretation, normalizing to itself, so lookup of a matching
name succeeds on a bare-symbol head, a non-matching bare-symbol head lets the
pairwise walk continue, and only atoms with no keyword interpretation — such
as numbers, strings and booleans — stop the walk with a non-error absence. -/
theorem c9_bare_symbol_keyword :
    (∀ s : List Char, s.head? ≠ some ':' → normalize_kw (.symbol s) = some s) ∧
    (∀ (tag v : Value) (k : List Char), k.head? ≠ some ':' →
      get_kw_value (.cons tag (.cons (.symbol k) (.cons v .null))) k = .ok (some v)) ∧
    (∀ (tag v rest : Value) (k key : List Char), k.head? ≠ some ':' → k ≠ key →
      get_kw_value (.cons tag (.cons (.symbol k) (.cons v rest))) key = kwLoop key rest) ∧
    (∀ n : Nat, normalize_kw (.posint n) = none) ∧
    (∀ s : List Char, normalize_kw (.string s) = none) ∧
    (∀ b : Bool, normalize_kw (.bool b) = none) ∧
    (∀ (tag h rest : Value) (key : List Char), normalize_kw h = none →
      get_kw_value (.cons tag (.cons h rest)) key = .ok none) := by
  have hnorm : ∀ s : List Char, s.head? ≠ some ':' → normalize_kw (.symbol s) = some s := by
    intro s hs
    cases s with
    | nil => simp [normalize_kw, as_symbol, stripColon]
    | cons c r =>
      have hc : ¬c = ':' := by simpa using hs
      simp [normalize_kw, as_symbol, stripColon, hc]
  refine ⟨hnorm, ?_, ?_, ?_, ?_, ?_, ?_⟩
  · intro tag v k hk
    simp only [get_kw_value, as_cons]
    rw [kwLoop.eq_def]
    simp [hnorm k hk]
  · intro tag v rest k key hk hne
    simp only [get_kw_value, as_cons]
    rw [kwLoop.eq_def]
    simp [hnorm k hk, hne]
  · intro n; simp [normalize_kw, as_symbol, as_keyword]
  · intro s; simp [normalize_kw, as_symbol, as_keyword]
  · intro b; simp [normalize_kw, as_symbol, as_keyword]
  · intro tag h rest key hh
    simp only [get_kw_value, as_cons]
    rw [kwLoop.eq_def]
    cases rest with
    | cons a d => simp [hh]
    | _ => simp [hh]

theorem c9_bare_symbol_keyword_witness :
    get_kw_value (.cons (.symbol ['t', 'o', 'o', 'l'])
      (.cons (.symbol ['k']) (.cons (.posint 5) .null))) ['k'] = .ok (some (.posint 5)) :=
  c9_bare_symbol_keyword.2.1 (.symbol ['t', 'o', 'o', 'l']) (.posint 5) ['k'] (by decide)

/-- C6 counterexample: a use-form carrying an extra third element is accepted
by parse_text_ref (yielding the path from the second element), although the
claim says any list of more than two elements must fail. -/
theorem c6_extra_element_accepted :
    parse_text_ref (.cons (.symbol ['u', 's', 'e'])
      (.cons (.string ['p']) (.cons (.string ['e']) .null))) = .ok (.UsePath ['p']) := rfl

/-- C6 amended: for every non-string value v, parse_text_ref v succeeds
exactly when v is a list cell whose head is the symbol use and whose tail is
a list cell starting with a string atom; the rest of the tail — extra
elements or a non-nil terminator — is ignored rather than rejected, and in
the successful case the result is the Reference of that string. -/
theorem c6_use_shape (v : Value) (hs : as_str v = none) :
    ((∃ r, parse_text_ref v = .ok r) ↔
      ∃ p rest, v = .cons (.symbol ['u', 's', 'e']) (.cons (.string p) rest)) ∧
    (∀ p rest, v = .cons (.symbol ['u', 's', 'e']) (.cons (.string p) rest) →
      parse_text_ref v = .ok (.UsePath p)) := by
  constructor
  · constructor
    · rintro ⟨r, hr⟩
      cases v with
      | cons car cdr =>
        cases car with
        | symbol head =>
          simp only [parse_text_ref, as_str, as_cons, as_symbol] at hr
          by_cases hh : head = ['u', 's', 'e']
          · subst hh
            simp only [if_pos rfl] at hr
            cases cdr with
            | cons arg rest =>
              cases arg with
              | string p => exact ⟨p, rest, rfl⟩
              | null => simp [as_str] at hr
              | bool b => simp [as_str] at hr
              | posint n => simp [as_str] at hr
              | negint n => simp [as_str] at hr
              | symbol s => simp [as_str] at hr
              | keyword s => simp [as_str] at hr
              | cons a d => simp [as_str] at hr
            | null => simp at hr
            | bool b => simp at hr
            | posint n => simp at hr
            | negint n => simp at hr
            | string s => simp at hr
            | symbol s => simp at hr
            | keyword s => simp at hr
          · rw [if_neg hh] at hr
            exact absurd hr (by simp)
        | null => simp [parse_text_ref, as_str, as_cons, as_symbol] at hr
        | bool b => simp [parse_text_ref, as_str, as_cons, as_symbol] at hr
        | posint n => simp [parse_text_ref, as_str, as_cons, as_symbol] at hr
        | negint n => simp [parse_text_ref, as_str, as_cons, as_symbol] at hr
        | string s => simp [parse_text_ref, as_str, as_cons, as_symbol] at hr
        | keyword s => simp [parse_text_ref, as_str, as_cons, as_symbol] at hr
        | cons a d => simp [parse_text_ref, as_str, as_cons, as_symbol] at hr
      | null => simp [parse_text_ref, as_str, as_cons] at hr
      | bool b => simp [parse_text_ref, as_str, as_cons] at hr
      | posint n => simp [parse_text_ref, as_str, as_cons] at hr
      | negint n => simp [parse_text_ref, as_str, as_cons] at hr
      | string s => simp [as_str] at hs
      | symbol s => simp [parse_text_ref, as_str, as_cons] at hr
      | keyword s => simp [parse_text_ref, as_str, as_cons] at hr
    · rintro ⟨p, rest, rfl⟩
      exact ⟨.UsePath p, by simp [parse_text_ref, as_str, as_cons, as_symbol]⟩
  · rintro p rest rfl
    simp [parse_text_ref, as_str, as_cons, as_symbol]

theorem c6_use_shape_witness :
    parse_text_ref (.cons (.symbol ['u', 's', 'e'])
      (.cons (.string ['p']) .null)) = .ok (.UsePath ['p']) :=
  (c6_use_shape (.cons (.symbol ['u', 's', 'e']) (.cons (.string ['p']) .null))
    (by decide)).2 ['p'] .null rfl

/-- C7: the claim says parse_str_list errors whenever the value is not a
proper list, but iter_list never errors despite documenting that it does;
evaluating the code shows a non-list atom yields an empty success, an
improper list of strings yields a success with the terminator dropped, and
only a non-string element yields an error. -/
theorem c7_non_list_accepted :
    parse_str_list (.posint 42) = .ok [] ∧
    parse_str_list (.cons (.string ['a']) (.string ['b'])) = .ok [['a']] ∧
    parse_str_list (.cons (.posint 1) (.cons (.posint 2) .null))
      = .error "expected string item in list" ∧
    parse_str_list (.cons (.string ['a']) (.cons (.string ['b']) .null))
      = .ok [['a'], ['b']] ∧
    extract_string_list (.posint 42) = .ok [] := by
  refine ⟨rfl, rfl, rfl, rfl, rfl⟩

/-- C8 counterexample: an unsigned integer atom holding 2 to the 63 — one
past the signed maximum — is not returned unchanged: the unchecked cast
wraps it to the most negative 64-bit value. -/
theorem c8_large_u64_wraps :
    get_int (.cons (.symbol ['t']) (.cons (.symbol [':', 'n'])
      (.cons (.posint 9223372036854775808) .null))) ['n']
      = .ok (some (-9223372036854775808 : Int)) := rfl

/-- C8 amended: get_int returns the absent marker when the keyword is
missing, the exact value for signed-range atoms, the unchanged value for
unsigned atoms only up to the signed maximum — larger unsigned atoms wrap by
2 to the 64 — the parsed value for base-ten integer strings, and an error
for every other representation: unparseable strings, booleans, list cells,
symbols, keyword atoms and the nil value. -/
theorem c8_get_int_spec (root : Value) (key : List Char) :
    (get_kw_value root key = .ok none → get_int root key = .ok none) ∧
    (∀ n : Int, get_kw_value root key = .ok (some (.negint n)) →
      get_int root key = .ok (some n)) ∧
    (∀ u : Nat, u < i64Lim → get_kw_value root key = .ok (some (.posint u)) →
      get_int root key = .ok (some (u : Int))) ∧
    (∀ u : Nat, i64Lim ≤ u → get_kw_value root key = .ok (some (.posint u)) →
      get_int root key = .ok (some ((u : Int) - (u64Mod : Int)))) ∧
    (∀ (s : List Char) (n : Int), parse_i64 s = some n →
      get_kw_value root key = .ok (some (.string s)) →
      get_int root key = .ok (some n)) ∧
    (∀ s : List Char, parse_i64 s = none →
      get_kw_value root key = .ok (some (.string s)) →
      isErr (get_int root key) = true) ∧
    (∀ b : Bool, get_kw_value root key = .ok (some (.bool b)) →
      isErr (get_int root key) = true) ∧
    (∀ a d : Value, get_kw_value root key = .ok (some (.cons a d)) →
      isErr (get_int root key) = true) ∧
    (∀ s : List Char, get_kw_value root key = .ok (some (.symbol s)) →
      isErr (get_int root key) = true) ∧
    (∀ s : List Char, get_kw_value root key = .ok (some (.keyword s)) →
      isErr (get_int root key) = true) ∧
    (get_kw_value root key = .ok (some .null) →
      isErr (get_int root key) = true) := by
  refine ⟨?_, ?_, ?_, ?_, ?_, ?_, ?_, ?_, ?_, ?_, ?_⟩
  · intro h; simp [get_int, h]
  · intro n h; simp [get_int, h, as_i64]
  · intro u hu h
    simp [get_int, h, as_i64, hu]
  · intro u hu h
    have hnu : ¬u < i64Lim := by omega
    simp [get_int, h, as_i64, as_u64, as_str, hnu, u64_as_i64]
  · intro s n hp h
    simp [get_int, h, as_i64, as_u64, as_str, hp]
  · intro s hp h
    simp [get_int, h, as_i64, as_u64, as_str, hp, isErr]
  · intro b h
    simp [get_int, h, as_i64, as_u64, as_str, isErr]
  · intro a d h
    simp [get_int, h, as_i64, as_u64, as_str, isErr]
  · intro s h
    simp [get_int, h, as_i64, as_u64, as_str, isErr]
  · intro s h
    simp [get_int, h, as_i64, as_u64, as_str, isErr]
  · intro h
    simp [get_int, h, as_i64, as_u64, as_str, isErr]

theorem c8_get_int_spec_witness :
    get_int (.cons (.symbol ['t', 'o', 'o', 'l'])
      (.cons (.symbol [':', 'n']) (.cons (.string ['4', '2']) .null))) ['n']
      = .ok (some 42) :=
  (c8_get_int_spec (.cons (.symbol ['t', 'o', 'o', 'l'])
      (.cons (.symbol [':', 'n']) (.cons (.string ['4', '2']) .null))) ['n']).2.2.2.2.1
    ['4', '2'] 42 (by decide) (by simp [get_kw_value, as_cons, kwLoop, normalize_kw,
      as_symbol, as_keyword, stripColon])
